import Mathlib

/-
Verification of the MotionWave four-voice harmonization engine.

The development shallowly embeds the two harmonizers of the repository:
the probabilistic `NeuralHarmonizer` (improved-harmonizer.ts) together
with its vocabulary and transition-matrix machinery, and the
deterministic `SimpleHarmonizer` (HandGestureTest.tsx) with its
chord construction and voice-leading smoothing.

Modelling conventions:
- JavaScript numbers are modelled by `ℤ` (MIDI pitches, vocabulary
  indices) and `ℚ` (probabilities, velocities, random draws); the
  floating-point transcendental `Math.exp` is abstracted as a function
  parameter `mexp : ℚ → ℚ`, since no claim depends on its values.
- Calls to `Math.random()` are modelled by explicitly passed uniform
  draws in `[0,1)`.
- JavaScript `undefined` results of out-of-bounds array reads are
  modelled by `Option` / `getD` with default `0`; this region is never
  reached by the program for the inputs the claims quantify over.
- The note dictionaries NOTE_VOCABULARY / VOCABULARY_TO_NOTE are
  modelled by one enumeration list `vocab` (control tokens START, END
  and the separator at positions 0, 1, 2, exactly as built by
  `initializeVocabulary`), with encode/decode derived from it.
-/

namespace MotionWave

/-- JavaScript `Math.abs` restricted to integers. -/
def jsAbs (x : ℤ) : ℤ := if x < 0 then -x else x

/-- The two timbre tags ('A' and 'O') used by both harmonizers. -/
inductive Vowel
| A
| O
deriving DecidableEq

/-- The four voice roles. -/
inductive Voice
| bass
| tenor
| mezzoSoprano
| soprano
deriving DecidableEq

/-- A note as produced by the NeuralHarmonizer (improved-harmonizer.ts);
the optional `tie` field of the source defaults to `false`. -/
structure Note where
  midiNote : ℤ
  velocity : ℚ
  vowel : Vowel
  tie : Bool := false
deriving DecidableEq

/-- A four-voice harmony (NeuralHarmonizer side). -/
structure HarmonyResult where
  bass : Note
  tenor : Note
  mezzoSoprano : Note
  soprano : Note
deriving DecidableEq

/-- Projection of a `HarmonyResult` at a voice role. -/
def HarmonyResult.getVoice (h : HarmonyResult) : Voice → Note
| .bass => h.bass
| .tenor => h.tenor
| .mezzoSoprano => h.mezzoSoprano
| .soprano => h.soprano

/-! ## Vocabulary (initializeVocabulary) -/

/-- The white-key semitone offsets C, D, E, F, G, A, B. -/
def whiteKeyPattern : List ℤ := [0, 2, 4, 5, 7, 9, 11]

/-- The (midiNote, tie) pitch states enumerated by `initializeVocabulary`:
octaves 2..6, each white key, tied then untied. -/
def noteStates : List (ℤ × Bool) :=
  (List.range 5).flatMap (fun o =>
    whiteKeyPattern.flatMap (fun w =>
      [(((o : ℤ) + 2 + 1) * 12 + w, true), (((o : ℤ) + 2 + 1) * 12 + w, false)]))

/-- The vocabulary in index order: the three control tokens START, END
and the separator (positions 0, 1, 2, modelled as `none`), followed by
the pitch states. -/
def vocab : List (Option (ℤ × Bool)) := [none, none, none] ++ noteStates.map some

/-- `Object.keys(VOCABULARY_TO_NOTE).length`. -/
def vocabularySize : ℕ := vocab.length

/-- Encoding of a (midiNote, tie) key, as by the NOTE_VOCABULARY lookup:
`some` index when the key is in the vocabulary, `none` (undefined) otherwise. -/
def NOTE_VOCABULARY (k : ℤ × Bool) : Option ℕ :=
  vocab.findIdx? (fun e => e = some k)

/-- Decoding of a vocabulary index, as by the VOCABULARY_TO_NOTE lookup:
`none` stands both for the three control-token strings (which
`vocabKeyToNote` rejects) and for an absent key. -/
def VOCABULARY_TO_NOTE (i : ℕ) : Option (ℤ × Bool) :=
  vocab.getD i none

/-- `NOTE_VOCABULARY['START']`: the START control token is assigned index 0. -/
def startTokenIndex : ℕ := 0

/-! ## Transition matrix (HarmonyNetwork.initializeTransitionMatrix) -/

/-- Interval-bucket base probability of `initializeTransitionMatrix`. -/
def baseProb (f t : ℤ × Bool) : ℚ :=
  let interval := jsAbs (t.1 - f.1)
  if interval = 0 then 3 / 10
  else if interval ≤ 2 then 1 / 4
  else if interval ≤ 4 then 1 / 5
  else if interval ≤ 7 then 3 / 20
  else if interval = 12 then 2 / 25
  else 1 / 50

/-- The literal `consonantIntervals` list of the source, including its
entry `12`, which is tested against `interval % 12`. -/
def consonantIntervals : List ℤ := [3, 4, 5, 7, 8, 9, 12]

/-- The unnormalized transition weight assigned to a pitch-state pair:
interval bucket, then consonance bonus, then tie bonus. -/
def rawProb (f t : ℤ × Bool) : ℚ :=
  let interval := jsAbs (t.1 - f.1)
  let p0 := baseProb f t
  let p1 := if interval % 12 ∈ consonantIntervals then p0 * (3 / 2) else p0
  if t.2 = true ∧ interval = 0 then p1 * (6 / 5) else p1

/-- The unnormalized transition weight as the claim words it: the
consonance bonus applies whenever `interval % 12` lies in
{3, 4, 5, 7, 8, 9, 0} (so in particular at the octave). Stated for
comparison against `rawProb`, which embeds the source. -/
def rawProbClaimed (f t : ℤ × Bool) : ℚ :=
  let interval := jsAbs (t.1 - f.1)
  let p0 := baseProb f t
  let p1 := if interval % 12 ∈ ([3, 4, 5, 7, 8, 9, 0] : List ℤ) then p0 * (3 / 2) else p0
  if t.2 = true ∧ interval = 0 then p1 * (6 / 5) else p1

/-- The weight contributed to a row cell by a vocabulary entry: control
tokens are skipped by the fill loop and keep their initial 0. -/
def entryProb (f : ℤ × Bool) : Option (ℤ × Bool) → ℚ
| none => 0
| some t => rawProb f t

/-- The row of unnormalized weights for a pitch state `f`. -/
def rawRow (f : ℤ × Bool) : List ℚ := vocab.map (entryProb f)

/-- Row-stochastic normalization: divide by the row sum when it is positive. -/
def normalizeRow (r : List ℚ) : List ℚ :=
  if 0 < r.sum then r.map (fun p => p / r.sum) else r

/-- The transition-matrix row for a vocabulary entry: control-token rows
are never filled and stay all-zero. -/
def rowFor : Option (ℤ × Bool) → List ℚ
| none => List.replicate vocabularySize 0
| some f => normalizeRow (rawRow f)

/-- The transition matrix built once by `initializeTransitionMatrix`. -/
def transitionMatrix : List (List ℚ) := vocab.map rowFor

/-! ## Stochastic generator (HarmonyNetwork) -/

/-- `generateProbabilities`: transition row of the current note, plus
decayed context contributions, then a temperature softmax. `mexp`
abstracts `Math.exp`. -/
def generateProbabilities (mexp : ℚ → ℚ) (currentNote : ℕ) (contextNotes : List ℕ) : List ℚ :=
  let base : List ℚ :=
    if currentNote < vocabularySize then transitionMatrix.getD currentNote []
    else List.replicate vocabularySize 0
  let withContext : List ℚ := contextNotes.enum.foldl
    (fun acc di =>
      if di.2 < vocabularySize then
        List.zipWith (fun a b => a + (3 / 10) * mexp (-(di.1 : ℚ) * (1 / 2)) * b)
          acc (transitionMatrix.getD di.2 [])
      else acc)
    base
  let maxProb : ℚ := withContext.max?.getD 0
  let expProbs := withContext.map (fun p => mexp ((p - maxProb) / (6 / 5)))
  expProbs.map (fun p => p / expProbs.sum)

/-- Stable insertion of an index into a list sorted descending by key;
an element is placed before every element with a key not above its own,
matching the stable JavaScript sort with comparator `p[b] - p[a]`. -/
def insertByDesc (key : ℕ → ℚ) (a : ℕ) : List ℕ → List ℕ
| [] => [a]
| b :: l => if key b ≤ key a then a :: b :: l else b :: insertByDesc key a l

/-- Stable descending sort of index lists by key. -/
def sortIndicesDesc (key : ℕ → ℚ) (l : List ℕ) : List ℕ :=
  l.foldr (insertByDesc key) []

/-- The candidate indices of `sampleFromProbabilities`, sorted by
probability descending (stable). -/
def rankedIndices (probs : List ℚ) : List ℕ :=
  sortIndicesDesc (fun i => probs.getD i 0) (List.range probs.length)

/-- JavaScript `x || y` applied to an optional array read of a number:
both `undefined` and the number `0` are falsy. -/
def jsOrIdx (x : Option ℕ) (y : ℕ) : ℕ :=
  match x with
  | none => y
  | some 0 => y
  | some k => k

/-- `sampleFromProbabilities`: rank-biased selection. `r` models the
first `Math.random()` draw, `r2` the second one (drawn only on the
final branch). -/
def sampleFromProbabilities (probs : List ℚ) (r r2 : ℚ) : ℕ :=
  let indices := rankedIndices probs
  if r < 3 / 5 then indices.getD 0 0
  else if r < 4 / 5 then jsOrIdx indices[1]? (indices.getD 0 0)
  else if r < 9 / 10 then jsOrIdx indices[2]? (indices.getD 0 0)
  else indices.getD (Int.toNat ⌊r2 * min 5 (indices.length : ℚ)⌋) 0

/-! ## NeuralHarmonizer -/

/-- The per-voice history state of a `NeuralHarmonizer` instance; the
vocabulary and transition matrix are immutable and shared. -/
structure EngineState where
  history : Voice → List ℕ

/-- Push a vocabulary index onto a history, dropping the oldest entry
beyond length 8. -/
def pushHistory (l : List ℕ) (i : ℕ) : List ℕ :=
  let l2 := l ++ [i]
  if 8 < l2.length then l2.drop 1 else l2

/-- JavaScript `slice(-n)`: the last `n` entries. -/
def lastN (n : ℕ) (l : List ℕ) : List ℕ := l.drop (l.length - n)

/-- The per-voice pitch ranges of `applyVoiceRangeConstraints`. -/
def voiceRanges : Voice → ℤ × ℤ
| .bass => (40, 64)
| .tenor => (48, 69)
| .mezzoSoprano => (57, 77)
| .soprano => (60, 84)

/-- Single-octave correction followed by a hard clamp, as applied per
voice by `applyVoiceRangeConstraints`. -/
def constrainOctaveClamp (lo hi : ℤ) (n : Note) : Note :=
  let m1 :=
    if n.midiNote < lo then n.midiNote + 12
    else if hi < n.midiNote then n.midiNote - 12
    else n.midiNote
  { n with midiNote := max lo (min hi m1) }

/-- `applyVoiceRangeConstraints`, shared by both generation paths. -/
def applyVoiceRangeConstraints (h : HarmonyResult) : HarmonyResult :=
  { bass := constrainOctaveClamp 40 64 h.bass
    tenor := constrainOctaveClamp 48 69 h.tenor
    mezzoSoprano := constrainOctaveClamp 57 77 h.mezzoSoprano
    soprano := constrainOctaveClamp 60 84 h.soprano }

/-- `vocabKeyToNote`: decoding a vocabulary key into a Note. Control
tokens and absent keys decode to `none`; `rVol` and `rVowel` model the
two `Math.random()` draws for the volume jitter and the vowel choice. -/
def vocabKeyToNote (k : Option (ℤ × Bool)) (baseVolume : ℚ) (rVol rVowel : ℚ) : Option Note :=
  match k with
  | none => none
  | some (m, tie) =>
    let volume := max (1 / 10) (min 1 (baseVolume + (rVol - 1 / 2) * (1 / 5)))
    some { midiNote := m, velocity := volume
           vowel := if rVowel < 4 / 5 then .A else .O, tie := tie }

/-- Handling of a sampled index for one non-lead voice (the body of the
voices loop after sampling): on successful decoding the note is kept and
the index pushed onto that voice's history; otherwise the lead note is
substituted at 40% of the volume and the history is left untouched. -/
def voiceStep (leadNote : Note) (volume : ℚ) (selectedIndex : ℕ)
    (hist : List ℕ) (rVol rVowel : ℚ) : Note × List ℕ :=
  match vocabKeyToNote (VOCABULARY_TO_NOTE selectedIndex) (volume * (3 / 5)) rVol rVowel with
  | some n => (n, pushHistory hist selectedIndex)
  | none => ({ leadNote with velocity := volume * (2 / 5) }, hist)

/-- One voice of the stochastic generation loop: the lead voice copies
the lead note at the given volume; every other voice builds its context,
samples an index and runs `voiceStep`. `st1` already holds the lead push. -/
def genVoice (mexp : ℚ → ℚ) (rng : Voice → ℕ → ℚ) (st1 : EngineState)
    (leadVoice : Voice) (leadVocabIndex : ℕ) (leadNote : Note) (volume : ℚ)
    (v : Voice) : Note × List ℕ :=
  if v = leadVoice then ({ leadNote with velocity := volume }, st1.history v)
  else
    let voiceContext := lastN 4 (st1.history v)
    let leadContext := lastN 2 (st1.history leadVoice)
    let context := voiceContext ++ leadContext
    let lastNote := voiceContext.getLastD leadVocabIndex
    let probs := generateProbabilities mexp lastNote context
    let selectedIndex := sampleFromProbabilities probs (rng v 0) (rng v 1)
    voiceStep leadNote volume selectedIndex (st1.history v) (rng v 2) (rng v 3)

/-- The fixed chord offsets of `generateFallbackHarmony`. -/
def fallbackIntervals : Voice → ℤ
| .bass => -12
| .tenor => -7
| .mezzoSoprano => -3
| .soprano => 0

/-- The fallback harmony as assembled before range constraints: offset
pitches, lead velocity for the lead voice and 60% for the others, the
lead vowel everywhere; the note objects carry no tie flag. -/
def generateFallbackRaw (leadVoice : Voice) (leadNote : Note) (volume : ℚ) : HarmonyResult :=
  let mk : Voice → Note := fun v =>
    { midiNote := leadNote.midiNote + fallbackIntervals v
      velocity := if v = leadVoice then volume else volume * (3 / 5)
      vowel := leadNote.vowel, tie := false }
  { bass := mk .bass, tenor := mk .tenor
    mezzoSoprano := mk .mezzoSoprano, soprano := mk .soprano }

/-- `NeuralHarmonizer.generateFallbackHarmony`. -/
def generateFallbackHarmony (leadVoice : Voice) (leadNote : Note) (volume : ℚ) : HarmonyResult :=
  applyVoiceRangeConstraints (generateFallbackRaw leadVoice leadNote volume)

/-- `NeuralHarmonizer.generateHarmony`: encode the lead note; on a
vocabulary miss delegate to the fallback harmonizer with the state
untouched; otherwise push the lead index and generate every voice. -/
def generateHarmony (mexp : ℚ → ℚ) (rng : Voice → ℕ → ℚ) (st : EngineState)
    (leadVoice : Voice) (leadNote : Note) (volume : ℚ) : HarmonyResult × EngineState :=
  match NOTE_VOCABULARY (leadNote.midiNote, leadNote.tie) with
  | none => (generateFallbackHarmony leadVoice leadNote volume, st)
  | some leadVocabIndex =>
    let st1 : EngineState :=
      { history := fun v =>
          if v = leadVoice then pushHistory (st.history v) leadVocabIndex else st.history v }
    let res : Voice → Note × List ℕ :=
      fun v => genVoice mexp rng st1 leadVoice leadVocabIndex leadNote volume v
    (applyVoiceRangeConstraints
       { bass := (res .bass).1, tenor := (res .tenor).1
         mezzoSoprano := (res .mezzoSoprano).1, soprano := (res .soprano).1 },
     { history := fun v => (res v).2 })

/-- `NeuralHarmonizer.reset`: every voice history becomes the
one-element sequence holding the START token. -/
def resetState (_st : EngineState) : EngineState :=
  { history := fun _ => [startTokenIndex] }

/-- The state of a freshly constructed engine: the constructor starts
from empty histories and immediately calls `reset`. -/
def initEngineState : EngineState :=
  resetState { history := fun _ => [] }

/-! ## SimpleHarmonizer (HandGestureTest.tsx) -/

/-- A note of the SimpleHarmonizer (no tie field in the tsx interface). -/
structure SNote where
  midiNote : ℤ
  velocity : ℚ
  vowel : Vowel
deriving DecidableEq

/-- A four-voice harmony (SimpleHarmonizer side). -/
structure SHarmonyResult where
  bass : SNote
  tenor : SNote
  mezzoSoprano : SNote
  soprano : SNote
deriving DecidableEq

/-- Projection of an `SHarmonyResult` at a voice role. -/
def SHarmonyResult.getVoice (h : SHarmonyResult) : Voice → SNote
| .bass => h.bass
| .tenor => h.tenor
| .mezzoSoprano => h.mezzoSoprano
| .soprano => h.soprano

/-- The major-favoring pitch classes of `getChordType`. -/
def majorNotes : List ℤ := [0, 2, 4, 5, 7, 9]

/-- Chord quality as a flag: `true` for major. -/
inductive ChordType
| major
| minor
deriving DecidableEq

/-- `SimpleHarmonizer.getChordType`: classification by pitch class.
JavaScript `%` is truncating remainder, hence `Int.tmod`. -/
def getChordType (midiNote : ℤ) : ChordType :=
  if Int.tmod midiNote 12 ∈ majorNotes then .major else .minor

/-- The `while (note < min) note += 12` loop of `constrainToRange`. -/
def liftAbove (lo : ℤ) (n : ℤ) : ℤ :=
  if n < lo then liftAbove lo (n + 12) else n
termination_by (lo - n).toNat
decreasing_by simp_wf; omega

/-- The `while (note > max) note -= 12` loop of `constrainToRange`. -/
def dropBelow (hi : ℤ) (n : ℤ) : ℤ :=
  if hi < n then dropBelow hi (n - 12) else n
termination_by (n - hi).toNat
decreasing_by simp_wf; omega

/-- `SimpleHarmonizer.constrainToRange`: octave search loops followed by
a hard clamp. -/
def constrainToRange (n lo hi : ℤ) : ℤ :=
  max lo (min hi (dropBelow hi (liftAbove lo n)))

/-- `SimpleHarmonizer.generateChordHarmony`: the range-constrained triad
below the lead, with placeholder velocity 0.6 and vowel 'A'. -/
def generateChordHarmony (leadMidi : ℤ) (ct : ChordType) : SHarmonyResult :=
  let third : ℤ := match ct with | .major => 4 | .minor => 3
  let fifth : ℤ := 7
  { bass := ⟨constrainToRange (leadMidi - 12) 40 64, 3 / 5, .A⟩
    tenor := ⟨constrainToRange (leadMidi - fifth) 48 69, 3 / 5, .A⟩
    mezzoSoprano := ⟨constrainToRange (leadMidi - third) 57 77, 3 / 5, .A⟩
    soprano := ⟨constrainToRange leadMidi 60 84, 3 / 5, .A⟩ }

/-- The per-voice ranges table declared inside `smoothVoiceLeading`
(identical values to the `generateChordHarmony` call sites). -/
def simpleRanges : Voice → ℤ × ℤ
| .bass => (40, 64)
| .tenor => (48, 69)
| .mezzoSoprano => (57, 77)
| .soprano => (60, 84)

/-- The per-voice body of `smoothVoiceLeading`: when the interval to the
previous pitch exceeds 6 semitones, the source folds over the
alternatives `[n + 12, n - 12]`, keeping a `bestNote` and
`smallestInterval` accumulator that an in-range alternative updates when
its interval is strictly smaller. The two loop iterations are unrolled
here: the outer branch records whether `n + 12` replaced the
accumulator, and `n - 12` is then compared against the updated best. -/
def smoothPitch (lo hi prev n : ℤ) : ℤ :=
  if 6 < jsAbs (n - prev) then
    if lo ≤ n + 12 ∧ n + 12 ≤ hi ∧ jsAbs (n + 12 - prev) < jsAbs (n - prev) then
      if lo ≤ n - 12 ∧ n - 12 ≤ hi ∧ jsAbs (n - 12 - prev) < jsAbs (n + 12 - prev) then n - 12
      else n + 12
    else
      if lo ≤ n - 12 ∧ n - 12 ≤ hi ∧ jsAbs (n - 12 - prev) < jsAbs (n - prev) then n - 12
      else n
  else n

/-- `SimpleHarmonizer.smoothVoiceLeading` over a whole harmony. -/
def smoothVoiceLeading (newH prevH : SHarmonyResult) : SHarmonyResult :=
  let sm : Voice → SNote := fun v =>
    { newH.getVoice v with
        midiNote := smoothPitch (simpleRanges v).1 (simpleRanges v).2
          (prevH.getVoice v).midiNote (newH.getVoice v).midiNote }
  { bass := sm .bass, tenor := sm .tenor
    mezzoSoprano := sm .mezzoSoprano, soprano := sm .soprano }

/-- The alternate timbre tag. -/
def otherVowel : Vowel → Vowel
| .A => .O
| .O => .A

/-- `SimpleHarmonizer.generateHarmony`: chord construction, optional
smoothing against the stored previous harmony, then velocity and vowel
assignment; the result is stored as the new previous harmony. `rng v`
models the `Math.random()` draw for voice `v`'s vowel. -/
def sGenerateHarmony (rng : Voice → ℚ) (prev : Option SHarmonyResult)
    (leadVoice : Voice) (leadNote : SNote) (volume : ℚ) :
    SHarmonyResult × Option SHarmonyResult :=
  let h0 := generateChordHarmony leadNote.midiNote (getChordType leadNote.midiNote)
  let h1 := match prev with
    | some p => smoothVoiceLeading h0 p
    | none => h0
  let setv : Voice → SNote := fun v =>
    let n := h1.getVoice v
    if v = leadVoice then { n with velocity := volume, vowel := leadNote.vowel }
    else
      { n with velocity := volume * (3 / 5)
               vowel := if rng v < 4 / 5 then leadNote.vowel else otherVowel leadNote.vowel }
  let h2 : SHarmonyResult :=
    { bass := setv .bass, tenor := setv .tenor
      mezzoSoprano := setv .mezzoSoprano, soprano := setv .soprano }
  (h2, some h2)

/-! ## Helper lemmas -/

theorem applyVoiceRangeConstraints_mem (h : HarmonyResult) (v : Voice) :
    (voiceRanges v).1 ≤ ((applyVoiceRangeConstraints h).getVoice v).midiNote ∧
    ((applyVoiceRangeConstraints h).getVoice v).midiNote ≤ (voiceRanges v).2 := by
  cases v <;>
    simp only [applyVoiceRangeConstraints, constrainOctaveClamp, voiceRanges,
      HarmonyResult.getVoice] <;>
    omega

theorem liftAbove_stop (lo n : ℤ) (h : ¬ n < lo) : liftAbove lo n = n := by
  rw [liftAbove]
  exact if_neg h

theorem liftAbove_step (lo n : ℤ) (h : n < lo) : liftAbove lo n = liftAbove lo (n + 12) := by
  rw [liftAbove]
  exact if_pos h

theorem dropBelow_stop (hi n : ℤ) (h : ¬ hi < n) : dropBelow hi n = n := by
  rw [dropBelow]
  exact if_neg h

theorem dropBelow_step (hi n : ℤ) (h : hi < n) : dropBelow hi n = dropBelow hi (n - 12) := by
  rw [dropBelow]
  exact if_pos h

theorem constrainToRange_mem (n lo hi : ℤ) (h : lo ≤ hi) :
    lo ≤ constrainToRange n lo hi ∧ constrainToRange n lo hi ≤ hi := by
  unfold constrainToRange
  omega

/-! ## Claim theorems -/

/-- Claim C9: reset sets every voice history to the one-element START
sequence, and a reset engine behaves, on one generateHarmony call with
the same random draws (and the same Math.exp), exactly like a freshly
constructed instance, whose constructor performs the same reset over the
same immutable vocabulary and transition matrix. -/
theorem C9_reset_equiv (st : EngineState) :
    resetState st = initEngineState ∧
    (∀ v, (resetState st).history v = [startTokenIndex]) ∧
    ∀ (mexp : ℚ → ℚ) (rng : Voice → ℕ → ℚ) (lv : Voice) (ln : Note) (vol : ℚ),
      generateHarmony mexp rng (resetState st) lv ln vol =
      generateHarmony mexp rng initEngineState lv ln vol :=
  ⟨rfl, fun _ => rfl, fun _ _ _ _ _ => rfl⟩

/-- Claim C10: a generateHarmony call whose lead pitch misses the
vocabulary returns the fallback harmony and leaves every voice history
exactly as it was. -/
theorem C10_frame (mexp : ℚ → ℚ) (rng : Voice → ℕ → ℚ) (st : EngineState)
    (lv : Voice) (ln : Note) (vol : ℚ)
    (h : NOTE_VOCABULARY (ln.midiNote, ln.tie) = none) :
    generateHarmony mexp rng st lv ln vol = (generateFallbackHarmony lv ln vol, st) ∧
    ∀ v, (generateHarmony mexp rng st lv ln vol).2.history v = st.history v := by
  unfold generateHarmony
  rw [h]
  exact ⟨rfl, fun _ => rfl⟩

/-- Witness for C10 at the out-of-vocabulary lead pitch 61. -/
theorem C10_frame_witness :
    NOTE_VOCABULARY (61, false) = none ∧
    generateHarmony (fun q => q) (fun _ _ => 0) initEngineState .soprano
        { midiNote := 61, velocity := 1, vowel := .A, tie := false } 1 =
      (generateFallbackHarmony .soprano
        { midiNote := 61, velocity := 1, vowel := .A, tie := false } 1, initEngineState) :=
  ⟨by decide, (C10_frame _ _ _ _ _ _ (by decide)).1⟩

/-- Claim C8: in the stochastic path, a sampled index that fails to
decode (in particular one naming a control token) makes the engine
substitute, for that voice only, a copy of the lead note at 40% of the
volume, and that voice's history is left untouched; the functions
involved are total, so no error crosses the public contract. -/
theorem C8_decode_fallback (leadNote : Note) (volume : ℚ) (selectedIndex : ℕ)
    (hist : List ℕ) (rVol rVowel : ℚ)
    (h : VOCABULARY_TO_NOTE selectedIndex = none) :
    voiceStep leadNote volume selectedIndex hist rVol rVowel =
      ({ leadNote with velocity := volume * (2 / 5) }, hist) := by
  unfold voiceStep
  rw [h]
  rfl

/-- Witness for C8 at the START control token (index 0). -/
theorem C8_decode_fallback_witness :
    VOCABULARY_TO_NOTE 0 = none ∧
    voiceStep { midiNote := 60, velocity := 1, vowel := .A, tie := false } 1 0 [] 0 0 =
      ({ ({ midiNote := 60, velocity := 1, vowel := .A, tie := false } : Note) with
          velocity := 1 * (2 / 5) }, []) :=
  ⟨by decide, C8_decode_fallback _ _ _ _ _ _ (by decide)⟩

/-- Counterexample to claim C3: lead pitch 96 is outside the vocabulary
and has major-favoring pitch class 0, yet the engine's fallback places
the upper-middle voice a minor third (3 semitones) below the lead, not a
major third; the chord-quality classification does not run on this path. -/
theorem C3_counterexample :
    NOTE_VOCABULARY (96, false) = none ∧
    Int.tmod 96 12 ∈ majorNotes ∧
    (generateFallbackRaw .soprano
        { midiNote := 96, velocity := 4 / 5, vowel := .A, tie := false } (4 / 5)
      ).mezzoSoprano.midiNote = 96 - 3 ∧
    (96 : ℤ) - 3 ≠ 96 - 4 := by
  refine ⟨by decide, by decide, rfl, by decide⟩

/-- Claim C3 as amended: on a vocabulary miss the engine delegates
entirely to generateFallbackHarmony, which offsets the voices by the
fixed intervals bass -12, tenor -7, upper-middle -3, soprano 0 before
range constraints, independent of the lead's pitch class. -/
theorem C3_fallback_behavior (mexp : ℚ → ℚ) (rng : Voice → ℕ → ℚ) (st : EngineState)
    (lv : Voice) (ln : Note) (vol : ℚ)
    (h : NOTE_VOCABULARY (ln.midiNote, ln.tie) = none) :
    (generateHarmony mexp rng st lv ln vol).1 = generateFallbackHarmony lv ln vol ∧
    ∀ v, ((generateFallbackRaw lv ln vol).getVoice v).midiNote =
      ln.midiNote + fallbackIntervals v := by
  constructor
  · unfold generateHarmony
    rw [h]
  · intro v
    cases v <;> rfl

/-- Witness for the amended C3 at the out-of-vocabulary lead pitch 96. -/
theorem C3_fallback_behavior_witness :
    NOTE_VOCABULARY (96, false) = none ∧
    ((generateFallbackRaw .soprano
        { midiNote := 96, velocity := 4 / 5, vowel := .A, tie := false } (4 / 5)
      ).getVoice .mezzoSoprano).midiNote = 96 + fallbackIntervals .mezzoSoprano :=
  ⟨by decide,
    (C3_fallback_behavior (fun q => q) (fun _ _ => 0) initEngineState .soprano
      { midiNote := 96, velocity := 4 / 5, vowel := .A, tie := false } (4 / 5)
      (by decide)).2 .mezzoSoprano⟩

theorem rawProb_pos (f t : ℤ × Bool) : 0 < rawProb f t := by
  simp only [rawProb, baseProb]
  split_ifs <;> norm_num

theorem sum_map_div (l : List ℚ) (c : ℚ) :
    (l.map (fun p => p / c)).sum = l.sum / c := by
  induction l with
  | nil => simp
  | cons a l ih => simp [ih, add_div]

theorem rawRow_sum_pos (f : ℤ × Bool) : 0 < (rawRow f).sum := by
  have hv : (some ((36 : ℤ), true) : Option (ℤ × Bool)) ∈ vocab := by decide
  have hmem : rawProb f (36, true) ∈ rawRow f := List.mem_map_of_mem (entryProb f) hv
  have hnn : ∀ x ∈ rawRow f, 0 ≤ x := by
    intro x hx
    rcases List.mem_map.1 hx with ⟨e, _, rfl⟩
    cases e with
    | none => exact le_refl 0
    | some t => exact le_of_lt (rawProb_pos f t)
  exact lt_of_lt_of_le (rawProb_pos f (36, true)) (List.single_le_sum hnn _ hmem)

theorem normalizeRow_sum_of_pos (r : List ℚ) (h : 0 < r.sum) :
    (normalizeRow r).sum = 1 := by
  unfold normalizeRow
  rw [if_pos h, sum_map_div, div_self (ne_of_gt h)]

theorem rowFor_sum (f : ℤ × Bool) : (rowFor (some f)).sum = 1 :=
  normalizeRow_sum_of_pos _ (rawRow_sum_pos f)

theorem transitionMatrix_getD (i : ℕ) (h : i < vocabularySize) :
    transitionMatrix.getD i [] = rowFor (vocab.getD i none) := by
  unfold transitionMatrix
  rw [List.getD_eq_getElem?_getD, List.getElem?_map, List.getD_eq_getElem?_getD,
    List.getElem?_eq_getElem h]
  rfl

/-- Claim C2: in the transition matrix, every row of a pitch state sums
to 1 (exactly, in the rational-arithmetic model, hence within 1e-9), and
every row of a control token (START, END, separator) is all zeros. The
matrix is a constant built once (`transitionMatrix`) and nothing mutates it. -/
theorem C2_row_sums (i : ℕ) (h : i < vocabularySize) :
    (vocab.getD i none = none →
      transitionMatrix.getD i [] = List.replicate vocabularySize 0) ∧
    (vocab.getD i none ≠ none →
      (transitionMatrix.getD i []).sum = 1 ∧
      |(transitionMatrix.getD i []).sum - 1| ≤ 1 / 1000000000) := by
  rw [transitionMatrix_getD i h]
  constructor
  · intro he
    rw [he]
    rfl
  · intro he
    cases hv : vocab.getD i none with
    | none => exact absurd hv he
    | some f =>
      rw [rowFor_sum]
      norm_num

/-- Witness for C2 at row 3, the first pitch state (C2 tied). -/
theorem C2_row_sums_witness :
    3 < vocabularySize ∧ (transitionMatrix.getD 3 []).sum = 1 :=
  ⟨by decide, ((C2_row_sums 3 (by decide)).2 (by decide)).1⟩

/-- Counterexample to claim C4: for the octave pair C2 tied to C3 tied
(absolute interval 12, so d mod 12 = 0) the source multiplies nothing:
the weight equals the bare interval-bucket value 0.08, not the
bonus-carrying 0.08 * 1.5 that the claim's consonance set predicts. -/
theorem C4_counterexample :
    rawProb (36, true) (48, true) = 2 / 25 ∧
    rawProbClaimed (36, true) (48, true) = 2 / 25 * (3 / 2) ∧
    rawProb (36, true) (48, true) ≠ rawProbClaimed (36, true) (48, true) := by
  refine ⟨by norm_num [rawProb, baseProb, consonantIntervals, jsAbs], ?_, ?_⟩ <;>
    norm_num [rawProb, rawProbClaimed, baseProb, consonantIntervals, jsAbs]

/-- Claim C4 as amended: the 1.5 consonance bonus applies exactly when
the absolute interval mod 12 lies in {3,4,5,7,8,9}; the literal 12 in
the source's list can never match `interval % 12`, so the octave
(d = 12, d mod 12 = 0) receives no bonus. -/
theorem C4_consonance (f t : ℤ × Bool) :
    rawProb f t =
      (if jsAbs (t.1 - f.1) % 12 ∈ ([3, 4, 5, 7, 8, 9] : List ℤ) then baseProb f t * (3 / 2)
       else baseProb f t) *
      (if t.2 = true ∧ jsAbs (t.1 - f.1) = 0 then 6 / 5 else 1) ∧
    (jsAbs (t.1 - f.1) = 12 → rawProb f t = baseProb f t) := by
  have h0 : 0 ≤ jsAbs (t.1 - f.1) := by
    unfold jsAbs
    split <;> omega
  have h12 : jsAbs (t.1 - f.1) % 12 < 12 := Int.emod_lt_of_pos _ (by norm_num)
  have h12n : 0 ≤ jsAbs (t.1 - f.1) % 12 := Int.emod_nonneg _ (by norm_num)
  have hmemiff : jsAbs (t.1 - f.1) % 12 ∈ consonantIntervals ↔
      jsAbs (t.1 - f.1) % 12 ∈ ([3, 4, 5, 7, 8, 9] : List ℤ) := by
    simp only [consonantIntervals, List.mem_cons, List.not_mem_nil, or_false]
    omega
  constructor
  · simp only [rawProb]
    by_cases ht : t.2 = true ∧ jsAbs (t.1 - f.1) = 0
    · have hz : jsAbs (t.1 - f.1) % 12 = 0 := by
        rw [ht.2]
        decide
      have hm : jsAbs (t.1 - f.1) % 12 ∉ consonantIntervals := by
        rw [hz]
        decide
      have hm2 : jsAbs (t.1 - f.1) % 12 ∉ ([3, 4, 5, 7, 8, 9] : List ℤ) := by
        rw [hz]
        decide
      rw [if_neg hm, if_neg hm2, if_pos ht, if_pos ht]
    · by_cases hmb : jsAbs (t.1 - f.1) % 12 ∈ consonantIntervals
      · have hm2 := hmemiff.1 hmb
        rw [if_pos hmb, if_pos hm2, if_neg ht, if_neg ht, mul_one]
      · have hm2 : jsAbs (t.1 - f.1) % 12 ∉ ([3, 4, 5, 7, 8, 9] : List ℤ) :=
          fun hc => hmb (hmemiff.2 hc)
        rw [if_neg hmb, if_neg hm2, if_neg ht, if_neg ht, mul_one]
  · intro hd
    have hm : jsAbs (t.1 - f.1) % 12 ∉ consonantIntervals := by
      rw [hd]
      decide
    have ht : ¬ (t.2 = true ∧ jsAbs (t.1 - f.1) = 0) := by
      rw [hd]
      simp
    simp [rawProb, hm, ht]

/-- Witness for the amended C4 at the octave pair C2 tied to C3 tied. -/
theorem C4_consonance_witness :
    jsAbs ((48 : ℤ) - 36) = 12 ∧
    rawProb (36, true) (48, true) = baseProb (36, true) (48, true) :=
  ⟨by decide, (C4_consonance (36, true) (48, true)).2 (by decide)⟩

theorem smoothPitch_mem (lo hi p n : ℤ) (hlo : lo ≤ n) (hhi : n ≤ hi) :
    lo ≤ smoothPitch lo hi p n ∧ smoothPitch lo hi p n ≤ hi := by
  unfold smoothPitch
  split_ifs <;> omega

theorem smoothPitch_spec (lo hi p n : ℤ) (h : 6 < jsAbs (n - p)) :
    ((smoothPitch lo hi p n = n + 12 ∨ smoothPitch lo hi p n = n - 12) ∧
      lo ≤ smoothPitch lo hi p n ∧ smoothPitch lo hi p n ≤ hi ∧
      jsAbs (smoothPitch lo hi p n - p) < jsAbs (n - p)) ∨
    (smoothPitch lo hi p n = n ∧
      ∀ a : ℤ, (a = n + 12 ∨ a = n - 12) → lo ≤ a → a ≤ hi →
        ¬ jsAbs (a - p) < jsAbs (n - p)) := by
  unfold smoothPitch
  rw [if_pos h]
  split_ifs with h1 h2 h3
  · exact .inl ⟨.inr rfl, h2.1, h2.2.1, lt_trans h2.2.2 h1.2.2⟩
  · exact .inl ⟨.inl rfl, h1.1, h1.2.1, h1.2.2⟩
  · exact .inl ⟨.inr rfl, h3.1, h3.2.1, h3.2.2⟩
  · refine .inr ⟨rfl, ?_⟩
    rintro a (rfl | rfl) hloa hhia hcl
    · exact h1 ⟨hloa, hhia, hcl⟩
    · exact h3 ⟨hloa, hhia, hcl⟩

theorem smoothVoiceLeading_midi (newH prevH : SHarmonyResult) (v : Voice) :
    ((smoothVoiceLeading newH prevH).getVoice v).midiNote =
      smoothPitch (simpleRanges v).1 (simpleRanges v).2
        (prevH.getVoice v).midiNote (newH.getVoice v).midiNote := by
  cases v <;> rfl

theorem smoothVoiceLeading_mem (newH prevH : SHarmonyResult) (v : Voice)
    (hlo : (simpleRanges v).1 ≤ (newH.getVoice v).midiNote)
    (hhi : (newH.getVoice v).midiNote ≤ (simpleRanges v).2) :
    (simpleRanges v).1 ≤ ((smoothVoiceLeading newH prevH).getVoice v).midiNote ∧
    ((smoothVoiceLeading newH prevH).getVoice v).midiNote ≤ (simpleRanges v).2 := by
  rw [smoothVoiceLeading_midi]
  exact smoothPitch_mem _ _ _ _ hlo hhi

theorem generateChordHarmony_mem (leadMidi : ℤ) (ct : ChordType) (v : Voice) :
    (simpleRanges v).1 ≤ ((generateChordHarmony leadMidi ct).getVoice v).midiNote ∧
    ((generateChordHarmony leadMidi ct).getVoice v).midiNote ≤ (simpleRanges v).2 := by
  cases v <;> cases ct <;> exact constrainToRange_mem _ _ _ (by decide)

theorem sGenerateHarmony_midi (rng : Voice → ℚ) (prev : Option SHarmonyResult)
    (lv : Voice) (ln : SNote) (vol : ℚ) (v : Voice) :
    (((sGenerateHarmony rng prev lv ln vol).1).getVoice v).midiNote =
    ((match prev with
      | some p =>
        smoothVoiceLeading (generateChordHarmony ln.midiNote (getChordType ln.midiNote)) p
      | none =>
        generateChordHarmony ln.midiNote (getChordType ln.midiNote)).getVoice v).midiNote := by
  cases prev <;> cases v <;>
    (simp only [sGenerateHarmony]; dsimp only [SHarmonyResult.getVoice]; split <;> rfl)

/-- Claim C1: both on the stochastic path and on the fallback path of
the engine's generateHarmony, and likewise for the SimpleHarmonizer's
generateHarmony, every returned voice pitch lies in that voice's closed
range: bass [40,64], tenor [48,69], mezzo-soprano [57,77], soprano [60,84]. -/
theorem C1_ranges :
    (∀ (mexp : ℚ → ℚ) (rng : Voice → ℕ → ℚ) (st : EngineState)
        (lv : Voice) (ln : Note) (vol : ℚ) (v : Voice),
      (voiceRanges v).1 ≤ (((generateHarmony mexp rng st lv ln vol).1).getVoice v).midiNote ∧
      (((generateHarmony mexp rng st lv ln vol).1).getVoice v).midiNote ≤ (voiceRanges v).2) ∧
    (∀ (rng : Voice → ℚ) (prev : Option SHarmonyResult)
        (lv : Voice) (ln : SNote) (vol : ℚ) (v : Voice),
      (simpleRanges v).1 ≤ (((sGenerateHarmony rng prev lv ln vol).1).getVoice v).midiNote ∧
      (((sGenerateHarmony rng prev lv ln vol).1).getVoice v).midiNote ≤ (simpleRanges v).2) := by
  constructor
  · intro mexp rng st lv ln vol v
    unfold generateHarmony
    cases hE : NOTE_VOCABULARY (ln.midiNote, ln.tie) with
    | none => exact applyVoiceRangeConstraints_mem _ v
    | some i => exact applyVoiceRangeConstraints_mem _ v
  · intro rng prev lv ln vol v
    rw [sGenerateHarmony_midi]
    cases prev with
    | none => exact generateChordHarmony_mem _ _ v
    | some p =>
      exact smoothVoiceLeading_mem _ _ v
        (generateChordHarmony_mem _ _ v).1 (generateChordHarmony_mem _ _ v).2

/-- Claim C6: in the fallback harmonizer's voice-leading smoothing, a
voice whose new pitch is more than 6 semitones from its previous pitch
is replaced by an octave-shifted alternative exactly when that
alternative is in the voice's range and strictly closer to the previous
pitch (ties keep the original). -/
theorem C6_smoothing (newH prevH : SHarmonyResult) (v : Voice)
    (h : 6 < jsAbs ((newH.getVoice v).midiNote - (prevH.getVoice v).midiNote)) :
    ((((smoothVoiceLeading newH prevH).getVoice v).midiNote = (newH.getVoice v).midiNote + 12 ∨
      ((smoothVoiceLeading newH prevH).getVoice v).midiNote = (newH.getVoice v).midiNote - 12) ∧
      (simpleRanges v).1 ≤ ((smoothVoiceLeading newH prevH).getVoice v).midiNote ∧
      ((smoothVoiceLeading newH prevH).getVoice v).midiNote ≤ (simpleRanges v).2 ∧
      jsAbs (((smoothVoiceLeading newH prevH).getVoice v).midiNote - (prevH.getVoice v).midiNote) <
        jsAbs ((newH.getVoice v).midiNote - (prevH.getVoice v).midiNote)) ∨
    (((smoothVoiceLeading newH prevH).getVoice v).midiNote = (newH.getVoice v).midiNote ∧
      ∀ a : ℤ, (a = (newH.getVoice v).midiNote + 12 ∨ a = (newH.getVoice v).midiNote - 12) →
        (simpleRanges v).1 ≤ a → a ≤ (simpleRanges v).2 →
        ¬ jsAbs (a - (prevH.getVoice v).midiNote) <
            jsAbs ((newH.getVoice v).midiNote - (prevH.getVoice v).midiNote)) := by
  rw [smoothVoiceLeading_midi]
  exact smoothPitch_spec _ _ _ _ h

/-- Witness for C6: the claimed 9-semitone scenario. The mezzo-soprano
voice moves from previous pitch 72 to candidate 63 (9 semitones); the
octave alternative 75 is in range [57,77] and only 3 semitones away, so
the smoothed output is 75 = 63 + 12. -/
theorem C6_smoothing_witness :
    6 < jsAbs ((63 : ℤ) - 72) ∧
    ((smoothVoiceLeading
        { bass := ⟨48, 1, .A⟩, tenor := ⟨53, 1, .A⟩
          mezzoSoprano := ⟨63, 1, .A⟩, soprano := ⟨60, 1, .A⟩ }
        { bass := ⟨48, 1, .A⟩, tenor := ⟨53, 1, .A⟩
          mezzoSoprano := ⟨72, 1, .A⟩, soprano := ⟨60, 1, .A⟩ }).getVoice
      .mezzoSoprano).midiNote = 63 + 12 := by
  refine ⟨by decide, ?_⟩
  have h := C6_smoothing
    { bass := ⟨48, 1, .A⟩, tenor := ⟨53, 1, .A⟩
      mezzoSoprano := ⟨63, 1, .A⟩, soprano := ⟨60, 1, .A⟩ }
    { bass := ⟨48, 1, .A⟩, tenor := ⟨53, 1, .A⟩
      mezzoSoprano := ⟨72, 1, .A⟩, soprano := ⟨60, 1, .A⟩ }
    .mezzoSoprano (by decide)
  rcases h with ⟨h75 | h51, _⟩ | ⟨heq, _⟩
  · exact h75
  · exact absurd h51 (by decide)
  · exact absurd heq (by decide)

/-- Claim C7: the first fallback call (no stored previous harmony) with
lead pitch 60, lead role soprano and volume 0.8 yields pitches bass 48,
tenor 53, mezzo-soprano 68 (candidate 56 is below the range minimum 57
and is lifted one octave) and soprano 60, for any random draws and any
lead velocity and vowel. -/
theorem C7_fallback_concrete (rng : Voice → ℚ) (vel : ℚ) (vw : Vowel) :
    (((sGenerateHarmony rng none .soprano { midiNote := 60, velocity := vel, vowel := vw }
        (4 / 5)).1).bass).midiNote = 48 ∧
    (((sGenerateHarmony rng none .soprano { midiNote := 60, velocity := vel, vowel := vw }
        (4 / 5)).1).tenor).midiNote = 53 ∧
    (((sGenerateHarmony rng none .soprano { midiNote := 60, velocity := vel, vowel := vw }
        (4 / 5)).1).mezzoSoprano).midiNote = 68 ∧
    (((sGenerateHarmony rng none .soprano { midiNote := 60, velocity := vel, vowel := vw }
        (4 / 5)).1).soprano).midiNote = 60 := by
  have hb : constrainToRange (60 - 12) 40 64 = 48 := by
    unfold constrainToRange
    rw [show (60 : ℤ) - 12 = 48 by norm_num, liftAbove_stop _ _ (by norm_num),
      dropBelow_stop _ _ (by norm_num)]
    decide
  have ht : constrainToRange (60 - 7) 48 69 = 53 := by
    unfold constrainToRange
    rw [show (60 : ℤ) - 7 = 53 by norm_num, liftAbove_stop _ _ (by norm_num),
      dropBelow_stop _ _ (by norm_num)]
    decide
  have hm : constrainToRange (60 - 4) 57 77 = 68 := by
    unfold constrainToRange
    rw [show (60 : ℤ) - 4 = 56 by norm_num, liftAbove_step _ _ (by norm_num),
      show (56 : ℤ) + 12 = 68 by norm_num, liftAbove_stop _ _ (by norm_num),
      dropBelow_stop _ _ (by norm_num)]
    decide
  have hs : constrainToRange 60 60 84 = 60 := by
    unfold constrainToRange
    rw [liftAbove_stop _ _ (by norm_num), dropBelow_stop _ _ (by norm_num)]
    decide
  have hct : getChordType 60 = .major := by decide
  refine ⟨?_, ?_, ?_, ?_⟩ <;>
    (simp only [sGenerateHarmony, hct]; dsimp only [SHarmonyResult.getVoice]) <;>
    simp only [generateChordHarmony] <;>
    first
    | exact hb
    | exact ht
    | exact hm
    | exact hs

theorem insertByDesc_length (key : ℕ → ℚ) (a : ℕ) (l : List ℕ) :
    (insertByDesc key a l).length = l.length + 1 := by
  induction l with
  | nil => rfl
  | cons b l ih =>
    unfold insertByDesc
    split
    · rfl
    · simp [ih]

theorem sortIndicesDesc_length (key : ℕ → ℚ) (l : List ℕ) :
    (sortIndicesDesc key l).length = l.length := by
  induction l with
  | nil => rfl
  | cons a l ih =>
    unfold sortIndicesDesc at ih ⊢
    simp [insertByDesc_length, ih]

theorem rankedIndices_length (probs : List ℚ) :
    (rankedIndices probs).length = probs.length := by
  unfold rankedIndices
  rw [sortIndicesDesc_length, List.length_range]

theorem jsOrIdx_none (y : ℕ) : jsOrIdx none y = y := rfl

theorem jsOrIdx_some_zero (y : ℕ) : jsOrIdx (some 0) y = y := rfl

theorem jsOrIdx_some_ne (v y : ℕ) (h : v ≠ 0) : jsOrIdx (some v) y = v := by
  cases v with
  | zero => exact absurd rfl h
  | succ n => rfl

/-- Counterexample to claim C5: on the two-candidate vector [0.4, 0.6]
the ranked order is [1, 0]; with a draw in [0.6, 0.8) the claim demands
the second-ranked index 0, but `indices[1] || indices[0]` treats the
number 0 as falsy and the source returns the best index 1 instead. -/
theorem C5_counterexample :
    2 ≤ ([2 / 5, 3 / 5] : List ℚ).length ∧
    rankedIndices [2 / 5, 3 / 5] = [1, 0] ∧
    (3 : ℚ) / 5 ≤ 7 / 10 ∧ (7 : ℚ) / 10 < 4 / 5 ∧
    sampleFromProbabilities [2 / 5, 3 / 5] (7 / 10) 0 = 1 ∧ (1 : ℕ) ≠ 0 := by
  have hkey : ¬ (([2 / 5, 3 / 5] : List ℚ).getD 1 0 ≤ ([2 / 5, 3 / 5] : List ℚ).getD 0 0) := by
    norm_num [List.getD]
  have hrank : rankedIndices [2 / 5, 3 / 5] = [1, 0] := by
    unfold rankedIndices sortIndicesDesc
    show insertByDesc _ 0 (insertByDesc _ 1 []) = [1, 0]
    rw [show insertByDesc (fun i => ([2 / 5, 3 / 5] : List ℚ).getD i 0) 1 [] = [1] from rfl]
    unfold insertByDesc
    rw [if_neg hkey]
    rfl
  refine ⟨by norm_num, hrank, by norm_num, by norm_num, ?_, by norm_num⟩
  simp only [sampleFromProbabilities]
  rw [hrank, if_neg (by norm_num : ¬ (7 : ℚ) / 10 < 3 / 5),
    if_pos (by norm_num : (7 : ℚ) / 10 < 4 / 5)]
  rfl

/-- Claim C5 as amended: with ranked candidates sorted by probability
descending, a draw below 0.6 picks the best; a draw in [0.6, 0.8) picks
the second-ranked, falling back to the best when fewer than 2 candidates
exist or when the second-ranked index is the (falsy) number 0; a draw in
[0.8, 0.9) picks the third-ranked with the same two fallbacks; otherwise
the second uniform draw picks position floor(r2 * min(5, n)) among the
top min(5, n) ranked candidates. -/
theorem C5_rank_policy (probs : List ℚ) (r r2 : ℚ) (h2 : 0 ≤ r2) (h3 : r2 < 1) :
    (r < 3 / 5 → sampleFromProbabilities probs r r2 = (rankedIndices probs).getD 0 0) ∧
    (3 / 5 ≤ r → r < 4 / 5 → 2 ≤ probs.length → (rankedIndices probs).getD 1 0 ≠ 0 →
      sampleFromProbabilities probs r r2 = (rankedIndices probs).getD 1 0) ∧
    (3 / 5 ≤ r → r < 4 / 5 → (probs.length < 2 ∨ (rankedIndices probs).getD 1 0 = 0) →
      sampleFromProbabilities probs r r2 = (rankedIndices probs).getD 0 0) ∧
    (4 / 5 ≤ r → r < 9 / 10 → 3 ≤ probs.length → (rankedIndices probs).getD 2 0 ≠ 0 →
      sampleFromProbabilities probs r r2 = (rankedIndices probs).getD 2 0) ∧
    (4 / 5 ≤ r → r < 9 / 10 → (probs.length < 3 ∨ (rankedIndices probs).getD 2 0 = 0) →
      sampleFromProbabilities probs r r2 = (rankedIndices probs).getD 0 0) ∧
    (9 / 10 ≤ r →
      sampleFromProbabilities probs r r2 =
        (rankedIndices probs).getD (Int.toNat ⌊r2 * min 5 (probs.length : ℚ)⌋) 0) ∧
    (1 ≤ probs.length →
      Int.toNat ⌊r2 * min 5 (probs.length : ℚ)⌋ < min 5 probs.length) := by
  have hlen := rankedIndices_length probs
  refine ⟨?_, ?_, ?_, ?_, ?_, ?_, ?_⟩
  · intro hr
    unfold sampleFromProbabilities
    rw [if_pos hr]
  · intro hr1 hr2 hn hne
    unfold sampleFromProbabilities
    rw [if_neg (not_lt.2 hr1), if_pos hr2]
    have h1 : 1 < (rankedIndices probs).length := by omega
    rw [List.getElem?_eq_getElem h1, ← List.getD_eq_getElem _ 0 h1]
    exact jsOrIdx_some_ne _ _ hne
  · intro hr1 hr2 hc
    unfold sampleFromProbabilities
    rw [if_neg (not_lt.2 hr1), if_pos hr2]
    by_cases hl : probs.length < 2
    · rw [List.getElem?_eq_none (by omega), jsOrIdx_none]
    · have hz : (rankedIndices probs).getD 1 0 = 0 := by
        rcases hc with hc | hc
        · exact absurd hc hl
        · exact hc
      have h1 : 1 < (rankedIndices probs).length := by omega
      rw [List.getElem?_eq_getElem h1, ← List.getD_eq_getElem _ 0 h1, hz, jsOrIdx_some_zero]
  · intro hr1 hr2 hn hne
    unfold sampleFromProbabilities
    rw [if_neg (not_lt.2 (le_trans (by norm_num) hr1)), if_neg (not_lt.2 hr1), if_pos hr2]
    have h1 : 2 < (rankedIndices probs).length := by omega
    rw [List.getElem?_eq_getElem h1, ← List.getD_eq_getElem _ 0 h1]
    exact jsOrIdx_some_ne _ _ hne
  · intro hr1 hr2 hc
    unfold sampleFromProbabilities
    rw [if_neg (not_lt.2 (le_trans (by norm_num) hr1)), if_neg (not_lt.2 hr1), if_pos hr2]
    by_cases hl : probs.length < 3
    · rw [List.getElem?_eq_none (by omega), jsOrIdx_none]
    · have hz : (rankedIndices probs).getD 2 0 = 0 := by
        rcases hc with hc | hc
        · exact absurd hc hl
        · exact hc
      have h1 : 2 < (rankedIndices probs).length := by omega
      rw [List.getElem?_eq_getElem h1, ← List.getD_eq_getElem _ 0 h1, hz, jsOrIdx_some_zero]
  · intro hr
    unfold sampleFromProbabilities
    rw [if_neg (not_lt.2 (le_trans (by norm_num) hr)),
      if_neg (not_lt.2 (le_trans (by norm_num) hr)), if_neg (not_lt.2 hr), hlen]
  · intro hn
    have hm1 : 1 ≤ min 5 probs.length := by omega
    have hcast : ((min 5 probs.length : ℕ) : ℚ) = min 5 (probs.length : ℚ) := by
      push_cast
      rfl
    have hpos : (0 : ℚ) < ((min 5 probs.length : ℕ) : ℚ) := by
      exact_mod_cast hm1
    have hub : r2 * ((min 5 probs.length : ℕ) : ℚ) < ((min 5 probs.length : ℕ) : ℚ) := by
      nlinarith
    have hf1 : ⌊r2 * min 5 (probs.length : ℚ)⌋ < ((min 5 probs.length : ℕ) : ℤ) := by
      rw [← hcast]
      exact Int.floor_lt.2 (by exact_mod_cast hub)
    have hf0 : 0 ≤ ⌊r2 * min 5 (probs.length : ℚ)⌋ := by
      refine Int.floor_nonneg.2 (mul_nonneg h2 ?_)
      rw [← hcast]
      exact le_of_lt hpos
    omega

/-- Witness for the amended C5: on the one-candidate vector [1] with
draw 0.1 the sampler returns the top-ranked index 0. -/
theorem C5_rank_policy_witness :
    (0 : ℚ) ≤ 0 ∧ (0 : ℚ) < 1 ∧ (1 : ℚ) / 10 < 3 / 5 ∧
    sampleFromProbabilities [1] (1 / 10) 0 = 0 := by
  refine ⟨le_refl 0, by norm_num, by norm_num, ?_⟩
  have h := (C5_rank_policy [1] (1 / 10) 0 (le_refl 0) (by norm_num)).1 (by norm_num)
  rw [h]
  rfl

end MotionWave
